import Mathlib

/-! # vncviewer/Viewport.cxx: input forwarding of the viewer widget

A shallow embedding of the input side of `Viewport` (key translation, key
tracking, pointer debouncing, the context menu dispatcher and the event
handler `Viewport::handle`), followed by the properties proved about it.

Conventions of the embedding.

* C `int` values (key codes, button masks, coordinates, event numbers) are
  `Int`; `rdr::U32` key symbols and `unsigned` code points are `Nat`.
* A `const char *` key text is the list of its bytes before the terminating
  NUL, so `keyText[0] == 0` is `keyText = []` and `strlen` is `List.length`.
* `cc->writer()` is write-only: the messages handed to it are appended to the
  field `sent` of the state, oldest first.
* `Fl::add_timeout` / `Fl::has_timeout` for `handlePointerTimeout` act on the
  field `pointerTimeouts`, the pending timeouts of that callback.  The delay
  `(double) pointerEventInterval / 1000.0` is recorded by its numerator in
  milliseconds.
* `vlog.error` only logs and is left out.
-/

namespace Viewport

/-! ## Toolkit and keysym constants

The headers that define them (`FL/Enumerations.H`, `rfb/keysymdef.h`) are not
part of the translated file; the values are the ones of those headers. -/

/-- Event number of a mouse button press (`FL/Enumerations.H`). -/
def FL_PUSH : Int := 1
/-- Event number of a mouse button release. -/
def FL_RELEASE : Int := 2
/-- Event number of the pointer entering the widget. -/
def FL_ENTER : Int := 3
/-- Event number of a pointer move with a button held. -/
def FL_DRAG : Int := 5
/-- Event number of the widget receiving the keyboard focus. -/
def FL_FOCUS : Int := 6
/-- Event number of the widget losing the keyboard focus. -/
def FL_UNFOCUS : Int := 7
/-- Event number of a key press. -/
def FL_KEYDOWN : Int := 8
/-- Event number of a key release. -/
def FL_KEYUP : Int := 9
/-- Event number of a pointer move with no button held. -/
def FL_MOVE : Int := 11
/-- Event number of a wheel movement. -/
def FL_MOUSEWHEEL : Int := 19

def FL_BackSpace : Int := 0xff08
def FL_Tab : Int := 0xff09
def FL_Enter : Int := 0xff0d
def FL_Pause : Int := 0xff13
def FL_Scroll_Lock : Int := 0xff14
def FL_Escape : Int := 0xff1b
def FL_Home : Int := 0xff50
def FL_Left : Int := 0xff51
def FL_Up : Int := 0xff52
def FL_Right : Int := 0xff53
def FL_Down : Int := 0xff54
def FL_Page_Up : Int := 0xff55
def FL_Page_Down : Int := 0xff56
def FL_End : Int := 0xff57
def FL_Print : Int := 0xff61
def FL_Insert : Int := 0xff63
def FL_Menu : Int := 0xff67
def FL_Help : Int := 0xff68
def FL_Num_Lock : Int := 0xff7f
def FL_KP : Int := 0xff80
def FL_KP_Enter : Int := 0xff8d
def FL_F : Int := 0xffbd
def FL_F_Last : Int := 0xffe0
def FL_Shift_L : Int := 0xffe1
def FL_Shift_R : Int := 0xffe2
def FL_Control_L : Int := 0xffe3
def FL_Control_R : Int := 0xffe4
def FL_Caps_Lock : Int := 0xffe5
def FL_Meta_L : Int := 0xffe7
def FL_Meta_R : Int := 0xffe8
def FL_Alt_L : Int := 0xffe9
def FL_Alt_R : Int := 0xffea
def FL_Delete : Int := 0xffff

def XK_VoidSymbol : Nat := 0xffffff
def XK_ISO_Level3_Shift : Nat := 0xfe03
def XK_BackSpace : Nat := 0xff08
def XK_Tab : Nat := 0xff09
def XK_Return : Nat := 0xff0d
def XK_Pause : Nat := 0xff13
def XK_Scroll_Lock : Nat := 0xff14
def XK_Escape : Nat := 0xff1b
def XK_Multi_key : Nat := 0xff20
def XK_Home : Nat := 0xff50
def XK_Left : Nat := 0xff51
def XK_Up : Nat := 0xff52
def XK_Right : Nat := 0xff53
def XK_Down : Nat := 0xff54
def XK_Page_Up : Nat := 0xff55
def XK_Page_Down : Nat := 0xff56
def XK_End : Nat := 0xff57
def XK_Print : Nat := 0xff61
def XK_Insert : Nat := 0xff63
def XK_Menu : Nat := 0xff67
def XK_Help : Nat := 0xff6a
def XK_Num_Lock : Nat := 0xff7f
def XK_KP_Enter : Nat := 0xff8d
def XK_KP_Multiply : Nat := 0xffaa
def XK_KP_Add : Nat := 0xffab
def XK_KP_Separator : Nat := 0xffac
def XK_KP_Subtract : Nat := 0xffad
def XK_KP_Decimal : Nat := 0xffae
def XK_KP_Divide : Nat := 0xffaf
def XK_KP_0 : Nat := 0xffb0
def XK_KP_Equal : Nat := 0xffbd
def XK_F1 : Nat := 0xffbe
def XK_F8 : Nat := 0xffc5
def XK_Shift_L : Nat := 0xffe1
def XK_Shift_R : Nat := 0xffe2
def XK_Control_L : Nat := 0xffe3
def XK_Control_R : Nat := 0xffe4
def XK_Caps_Lock : Nat := 0xffe5
def XK_Alt_L : Nat := 0xffe9
def XK_Alt_R : Nat := 0xffea
def XK_Super_L : Nat := 0xffeb
def XK_Super_R : Nat := 0xffec
def XK_Delete : Nat := 0xffff

/-- The value of a C character constant as an `int`. -/
def chr (c : Char) : Int := (c.toNat : Int)

/-! ## Menu constants (the anonymous `enum` of the file) -/

def ID_EXIT : Int := 0
def ID_CTRL : Int := 1
def ID_ALT : Int := 2
def ID_MENUKEY : Int := 3
def ID_CTRLALTDEL : Int := 4
def ID_REFRESH : Int := 5
def ID_OPTIONS : Int := 6
def ID_INFO : Int := 7
def ID_ABOUT : Int := 8
def ID_DISMISS : Int := 9

/-! ## Data model -/

/-- The type `rfb::Point`: integer coordinates `(x, y)`. -/
abbrev Point := Int × Int

/-- The type `DownMap` (`std::map<int, rdr::U32>`): key code to key symbol, kept as
the list of entries in ascending key order, which is the iteration order. -/
abbrev DownMap := List (Int × Nat)

/-- Lookup `downKeySym.find(keyCode)`; `none` stands for `end()`. -/
def DownMap.find : DownMap → Int → Option Nat
  | [], _ => none
  | (a, v) :: r, c => if a = c then some v else DownMap.find r c

/-- Removal `downKeySym.erase(iter)` of the entry whose key is `c`. -/
def DownMap.erase : DownMap → Int → DownMap
  | [], _ => []
  | (a, v) :: r, c => if a = c then DownMap.erase r c else (a, v) :: DownMap.erase r c

/-- Assignment `downKeySym[c] = k`: overwrite the entry of `c`, or add one in key order. -/
def DownMap.set : DownMap → Int → Nat → DownMap
  | [], c, k => [(c, k)]
  | (a, v) :: r, c, k =>
    if c < a then (c, k) :: (a, v) :: r
    else if c = a then (a, k) :: r
    else (a, v) :: DownMap.set r c k

/-- A message handed to the protocol writer `cc->writer()`. -/
inductive Msg where
  | keyEvent (key : Nat) (down : Bool)
  | pointerEvent (pos : Point) (buttonMask : Int)
  deriving DecidableEq, Repr

/-- A call that leaves the widget for another module of the viewer. -/
inductive Call where
  | exit_vncviewer
  | refreshFramebuffer
  | showDialog
  | connectionInfo
  | about_vncviewer
  deriving DecidableEq, Repr

/-- The functions of other modules that `translateKeyEvent` calls: the UTF-8
helpers of the toolkit and the Unicode-to-keysym table of `keysym2ucs.h`. -/
structure Env where
  /-- Number of UTF-8 characters of a byte string, `fl_utf_nb_char(buf, len)`. -/
  fl_utf_nb_char : List Nat → Int
  /-- Code point of the first character, `fl_utf8decode(p, NULL, NULL)`. -/
  fl_utf8decode : List Nat → Nat
  /-- Key symbol of a code point, `ucs2keysym(ucs)`. -/
  ucs2keysym : Nat → Nat

/-- The widget state that input handling reads and writes, together with the
two viewer parameters `viewOnly` and `pointerEventInterval` and the traces of
what was handed to the writer and to other modules. -/
structure State where
  viewOnly : Bool
  pointerEventInterval : Int
  downKeySym : DownMap
  lastPointerPos : Point
  lastButtonMask : Int
  pointerTimeouts : List Int
  sent : List Msg
  calls : List Call
  deriving DecidableEq, Repr

/-- The state right after `Viewport::Viewport`: `lastPointerPos(0, 0)`,
`lastButtonMask(0)`, an empty `downKeySym`, nothing sent, no timeout. -/
def State.init (viewOnly : Bool) (pointerEventInterval : Int) : State :=
  { viewOnly := viewOnly, pointerEventInterval := pointerEventInterval,
    downKeySym := [], lastPointerPos := (0, 0), lastButtonMask := 0,
    pointerTimeouts := [], sent := [], calls := [] }

/-- The call `cc->writer()->keyEvent(key, down)`. -/
def State.keyEvent (s : State) (key : Nat) (down : Bool) : State :=
  { s with sent := s.sent ++ [Msg.keyEvent key down] }

/-- The call `cc->writer()->pointerEvent(pos, buttonMask)`. -/
def State.pointerEvent (s : State) (pos : Point) (buttonMask : Int) : State :=
  { s with sent := s.sent ++ [Msg.pointerEvent pos buttonMask] }

/-! ## Pointer events -/

/-- The method `Viewport::handlePointerEvent`. -/
def handlePointerEvent (s : State) (pos : Point) (buttonMask : Int) : State :=
  if !s.viewOnly then
    let s1 :=
      if s.pointerEventInterval = 0 ∨ buttonMask ≠ s.lastButtonMask then
        s.pointerEvent pos buttonMask
      else
        if s.pointerTimeouts = [] then
          { s with pointerTimeouts := s.pointerTimeouts ++ [s.pointerEventInterval] }
        else s
    { s1 with lastPointerPos := pos, lastButtonMask := buttonMask }
  else s

/-- The callback `Viewport::handlePointerTimeout`. -/
def handlePointerTimeout (self : State) : State :=
  self.pointerEvent self.lastPointerPos self.lastButtonMask

/-- The toolkit running a pending pointer timeout: a timeout is one-shot, so it
leaves the pending list and its callback runs; nothing happens when none is
pending. -/
def firePointerTimeout (s : State) : State :=
  match s.pointerTimeouts with
  | [] => s
  | _ :: rest => handlePointerTimeout { s with pointerTimeouts := rest }

/-! ## Key translation -/

/-- The `case` labels of the `switch` of `translateKeyEvent` with the value
each returns, in source order. -/
def switchTable : List (Int × Nat) :=
  [ (FL_BackSpace, XK_BackSpace),
    (FL_Tab, XK_Tab),
    (FL_Enter, XK_Return),
    (FL_Pause, XK_Pause),
    (FL_Scroll_Lock, XK_Scroll_Lock),
    (FL_Escape, XK_Escape),
    (FL_Home, XK_Home),
    (FL_Left, XK_Left),
    (FL_Up, XK_Up),
    (FL_Right, XK_Right),
    (FL_Down, XK_Down),
    (FL_Page_Up, XK_Page_Up),
    (FL_Page_Down, XK_Page_Down),
    (FL_End, XK_End),
    (FL_Print, XK_Print),
    (FL_Insert, XK_Insert),
    (FL_Menu, XK_Menu),
    (FL_Help, XK_Help),
    (FL_Num_Lock, XK_Num_Lock),
    (FL_Shift_L, XK_Shift_L),
    (FL_Shift_R, XK_Shift_R),
    (FL_Control_L, XK_Control_L),
    (FL_Control_R, XK_Control_R),
    (FL_Caps_Lock, XK_Caps_Lock),
    (FL_Meta_L, XK_Super_L),
    (FL_Meta_R, XK_Super_R),
    (FL_Alt_L, XK_Alt_L),
    (FL_Alt_R, XK_Alt_R),
    (FL_Delete, XK_Delete),
    (FL_KP_Enter, XK_KP_Enter),
    (FL_KP + chr '=', XK_KP_Equal),
    (FL_KP + chr '*', XK_KP_Multiply),
    (FL_KP + chr '+', XK_KP_Add),
    (FL_KP + chr ',', XK_KP_Separator),
    (FL_KP + chr '-', XK_KP_Subtract),
    (FL_KP + chr '.', XK_KP_Decimal),
    (FL_KP + chr '/', XK_KP_Divide),
    ((XK_ISO_Level3_Shift : Int), XK_ISO_Level3_Shift),
    ((XK_Multi_key : Int), XK_Multi_key) ]

/-- The `switch (keyCode)` of `translateKeyEvent`: the value returned by the
label equal to `keyCode`, `none` when control falls out of the `switch`. -/
def switchLookup : List (Int × Nat) → Int → Option Nat
  | [], _ => none
  | (label, sym) :: rest, keyCode =>
    if keyCode = label then some sym else switchLookup rest keyCode

/-- The method `Viewport::translateKeyEvent`. -/
def translateKeyEvent (env : Env) (keyCode : Int) (keyText : List Nat) : Nat :=
  -- First check for function keys
  if FL_F < keyCode ∧ keyCode ≤ FL_F_Last then
    ((XK_F1 : Int) + (keyCode - FL_F - 1)).toNat
  -- Numpad numbers
  else if FL_KP + chr '0' ≤ keyCode ∧ keyCode ≤ FL_KP + chr '9' then
    ((XK_KP_0 : Int) + (keyCode - (FL_KP + chr '0'))).toNat
  else
    -- Then other special keys
    match switchLookup switchTable keyCode with
    | some sym => sym
    | none =>
      -- Unknown special key?
      if keyText = [] then XK_VoidSymbol
      -- Look up the symbol the key produces
      else if env.fl_utf_nb_char keyText ≠ 1 then XK_VoidSymbol
      else env.ucs2keysym (env.fl_utf8decode keyText)

/-! ## Key events -/

/-- The method `Viewport::handleKeyEvent`. -/
def handleKeyEvent (env : Env) (s : State) (keyCode : Int) (keyText : List Nat)
    (down : Bool) : State :=
  if s.viewOnly then s
  else if !down then
    match s.downKeySym.find keyCode with
    | none => s
    | some sym =>
      { s.keyEvent sym false with downKeySym := s.downKeySym.erase keyCode }
  else
    let keySym := translateKeyEvent env keyCode keyText
    if keySym = XK_VoidSymbol then s
    else
      { s with downKeySym := s.downKeySym.set keyCode keySym }.keyEvent keySym down

/-! ## The context menu -/

/-- The menu item returned by `contextMenu->popup()`: its `argument()` and,
for a toggle item, its `value()`. -/
structure MenuItem where
  argument : Int
  value : Bool
  deriving DecidableEq, Repr

/-- A call into another module of the viewer, recorded in `calls`. -/
def State.call (s : State) (c : Call) : State :=
  { s with calls := s.calls ++ [c] }

/-- The method `Viewport::popupContextMenu`; `m` is what `contextMenu->popup()`
returned, `none` for `NULL`. -/
def popupContextMenu (s : State) (m : Option MenuItem) : State :=
  match m with
  | none => s
  | some m =>
    if m.argument = ID_EXIT then s.call Call.exit_vncviewer
    else if m.argument = ID_CTRL then
      if !s.viewOnly then s.keyEvent XK_Control_L m.value else s
    else if m.argument = ID_ALT then
      if !s.viewOnly then s.keyEvent XK_Alt_L m.value else s
    else if m.argument = ID_MENUKEY then
      if !s.viewOnly then
        (s.keyEvent XK_F8 true).keyEvent XK_F8 false
      else s
    else if m.argument = ID_CTRLALTDEL then
      if !s.viewOnly then
        (((((s.keyEvent XK_Control_L true).keyEvent XK_Alt_L true).keyEvent XK_Delete true
          ).keyEvent XK_Delete false).keyEvent XK_Alt_L false).keyEvent XK_Control_L false
      else s
    else if m.argument = ID_REFRESH then s.call Call.refreshFramebuffer
    else if m.argument = ID_OPTIONS then s.call Call.showDialog
    else if m.argument = ID_INFO then s.call Call.connectionInfo
    else if m.argument = ID_ABOUT then s.call Call.about_vncviewer
    else s

/-! ## The event handler -/

/-- What the toolkit reports while an event is handled: the `Fl::event_*`
values, the widget origin `x()`, `y()`, and the item the user picks should the
context menu be opened. -/
structure Fl where
  event_button1 : Bool
  event_button2 : Bool
  event_button3 : Bool
  event_dy : Int
  event_x : Int
  event_y : Int
  x : Int
  y : Int
  event_key : Int
  event_text : List Nat
  popup : Option MenuItem
  deriving DecidableEq, Repr

/-- The local `buttonMask` of `Viewport::handle` after its three `|=`. -/
def buttonMaskOf (fl : Fl) : Int :=
  let buttonMask : Int := 0
  let buttonMask := if fl.event_button1 then Int.lor buttonMask 1 else buttonMask
  let buttonMask := if fl.event_button2 then Int.lor buttonMask 2 else buttonMask
  let buttonMask := if fl.event_button3 then Int.lor buttonMask 4 else buttonMask
  buttonMask

/-- The `for` loop of the `FL_UNFOCUS` case over `downKeySym`. -/
def releaseAll : DownMap → State → State
  | [], s => s
  | (_, sym) :: rest, s => releaseAll rest (s.keyEvent sym false)

/-- The method `Viewport::handle`: the new state and the returned `int`.  The
base class handler `Fl_Widget::handle` returns 0. -/
def handle (env : Env) (fl : Fl) (s : State) (event : Int) : State × Int :=
  if event = FL_ENTER then (s, 1)
  else if event = FL_PUSH ∨ event = FL_RELEASE ∨ event = FL_DRAG ∨ event = FL_MOVE
      ∨ event = FL_MOUSEWHEEL then
    let buttonMask := buttonMaskOf fl
    let s1 :=
      if event = FL_MOUSEWHEEL then
        let wheelMask : Int := if fl.event_dy < 0 then 8 else 16
        handlePointerEvent s (fl.event_x - fl.x, fl.event_y - fl.y)
          (Int.lor buttonMask wheelMask)
      else s
    (handlePointerEvent s1 (fl.event_x - fl.x, fl.event_y - fl.y) buttonMask, 1)
  else if event = FL_FOCUS then (s, 1)
  else if event = FL_UNFOCUS then
    ({ releaseAll s.downKeySym s with downKeySym := [] }, 1)
  else if event = FL_KEYDOWN then
    if fl.event_key = FL_F + 8 then (popupContextMenu s fl.popup, 1)
    else (handleKeyEvent env s fl.event_key fl.event_text true, 1)
  else if event = FL_KEYUP then
    (handleKeyEvent env s fl.event_key fl.event_text false, 1)
  else (s, 0)

/-! ## Runs of the widget -/

/-- One thing that can happen to the widget between two moments. -/
inductive Action where
  /-- The toolkit delivers an event to `Viewport::handle`. -/
  | event (fl : Fl) (event : Int)
  /-- The toolkit runs a pending `handlePointerTimeout`. -/
  | timeout
  /-- A direct call of `handlePointerEvent`. -/
  | pointer (pos : Point) (buttonMask : Int)
  /-- A direct call of `handleKeyEvent`. -/
  | key (keyCode : Int) (keyText : List Nat) (down : Bool)
  /-- The parameter `viewOnly` is changed. -/
  | setViewOnly (b : Bool)
  /-- The parameter `pointerEventInterval` is changed. -/
  | setPointerEventInterval (i : Int)
  deriving DecidableEq, Repr

/-- The state after one action. -/
def step (env : Env) (s : State) : Action → State
  | Action.event fl ev => (handle env fl s ev).1
  | Action.timeout => firePointerTimeout s
  | Action.pointer pos m => handlePointerEvent s pos m
  | Action.key c t d => handleKeyEvent env s c t d
  | Action.setViewOnly b => { s with viewOnly := b }
  | Action.setPointerEventInterval i => { s with pointerEventInterval := i }

/-- The state after a sequence of actions, oldest first. -/
def run (env : Env) : State → List Action → State
  | s, [] => s
  | s, a :: rest => run env (step env s a) rest

/-- Actions that come from the toolkit or the parameters, as opposed to direct
calls of the private handlers. -/
def Action.viaToolkit : Action → Bool
  | Action.pointer _ _ => false
  | Action.key _ _ _ => false
  | _ => true

/-- A key event on a key code other than `c`, or a pointer event. -/
def Action.besides (c : Int) : Action → Bool
  | Action.key c1 _ _ => decide (c1 ≠ c)
  | Action.pointer _ _ => true
  | _ => false

/-- The states the widget can be in: those some run from construction ends in. -/
def Reachable (env : Env) (s : State) : Prop :=
  ∃ (v : Bool) (i : Int) (acts : List Action), s = run env (State.init v i) acts

/-- The states reached when the handlers are only entered through
`Viewport::handle`, the timeout callback and parameter changes. -/
def ReachableViaHandle (env : Env) (s : State) : Prop :=
  ∃ (v : Bool) (i : Int) (acts : List Action),
    (∀ a ∈ acts, a.viaToolkit = true) ∧ s = run env (State.init v i) acts

/-! ## Reading the trace -/

/-- The most recent pointer message of a trace, if any. -/
def lastPointer : List Msg → Option (Point × Int)
  | [] => none
  | Msg.pointerEvent pos m :: rest =>
    match lastPointer rest with
    | some r => some r
    | none => some (pos, m)
  | Msg.keyEvent _ _ :: rest => lastPointer rest

/-- The most recent key message of a trace for the key symbol `k`: `some true`
for a press, `some false` for a release, `none` when there is none. -/
def lastKey (k : Nat) : List Msg → Option Bool
  | [] => none
  | Msg.keyEvent k1 d :: rest =>
    match lastKey k rest with
    | some r => some r
    | none => if k1 = k then some d else none
  | Msg.pointerEvent _ _ :: rest => lastKey k rest

/-- Every key symbol with a press in the trace has a release as its most
recent message. -/
def AllReleased (sent : List Msg) : Prop :=
  ∀ k, Msg.keyEvent k true ∈ sent → lastKey k sent = some false

/-! ## A sample environment

For ASCII text the UTF-8 helpers count and decode bytes, and `ucs2keysym` is
the identity on Latin-1.  This instance is used to run the model on concrete
inputs. -/

/-- Sample environment: single-byte characters, identity key symbols. -/
def asciiEnv : Env :=
  { fl_utf_nb_char := fun t => (t.length : Int),
    fl_utf8decode := fun t => t.headD 0,
    ucs2keysym := fun u => u }

/-- A toolkit report with no button held, the pointer at the widget origin and
no key. -/
def Fl.idle : Fl :=
  { event_button1 := false, event_button2 := false, event_button3 := false,
    event_dy := 0, event_x := 0, event_y := 0, x := 0, y := 0,
    event_key := 0, event_text := [], popup := none }

/-- A toolkit report with button 1 held and the pointer at the widget origin. -/
def Fl.button1 : Fl :=
  { Fl.idle with event_button1 := true }

/-- A toolkit report for a wheel movement with `event_dy = -1` at (5, 7) while
button 1 is held. -/
def Fl.wheelUp : Fl :=
  { Fl.button1 with event_dy := -1, event_x := 5, event_y := 7 }

/-- A toolkit report for the key `keyCode` producing the text `keyText`. -/
def Fl.ofKey (keyCode : Int) (keyText : List Nat) : Fl :=
  { Fl.idle with event_key := keyCode, event_text := keyText }

/-! ## Predicates and sample runs used in the statements -/

/-- A run with a repeated press: the key `a` (key code 0x61) goes down with the text "a",
goes down again with the text "A" before any release (a repeat with Shift
held), and the widget then loses the focus. -/
def repeatedPress : List Action :=
  [ Action.event (Fl.ofKey 0x61 [0x61]) FL_KEYDOWN,
    Action.event (Fl.ofKey 0x61 [0x41]) FL_KEYDOWN,
    Action.event Fl.idle FL_UNFOCUS ]

/-- The representation invariant of `DownMap`: key codes strictly ascending, so
no key code occurs twice. -/
def DownMap.Sorted (m : DownMap) : Prop :=
  List.Pairwise (fun a b => a.1 < b.1) m

/-- A run made of key presses and releases in which no key code that is recorded
as down is pressed again with another key symbol. -/
def NoOverwrite (env : Env) : State → List Action → Prop
  | _, [] => True
  | s, Action.key c t true :: rest =>
    (translateKeyEvent env c t = XK_VoidSymbol ∨ s.downKeySym.find c = none ∨
      s.downKeySym.find c = some (translateKeyEvent env c t)) ∧
    NoOverwrite env (handleKeyEvent env s c t true) rest
  | s, Action.key c t false :: rest => NoOverwrite env (handleKeyEvent env s c t false) rest
  | _, _ :: _ => False

/-- Every key symbol whose most recent message is a press is recorded in
`downKeySym`. -/
def KeyInv (s : State) : Prop :=
  ∀ k, lastKey k s.sent = some true → ∃ c, s.downKeySym.find c = some k

/-- Two states agree on everything the pointer path reads or writes, and the
most recent pointer message of their traces is the same. -/
def SamePointerSide (s s1 : State) : Prop :=
  s1.viewOnly = s.viewOnly ∧ s1.pointerEventInterval = s.pointerEventInterval ∧
  s1.lastPointerPos = s.lastPointerPos ∧ s1.lastButtonMask = s.lastButtonMask ∧
  s1.pointerTimeouts = s.pointerTimeouts ∧ lastPointer s1.sent = lastPointer s.sent

/-- At most one pointer timeout is pending, and when none is, the server has
either never been sent a pointer message while the widget still holds its
initial pointer state, or was last sent the pointer state the widget holds. -/
def PointerInv (s : State) : Prop :=
  s.pointerTimeouts.length ≤ 1 ∧
  (s.pointerTimeouts = [] →
    (lastPointer s.sent = none ∧ s.lastPointerPos = (0, 0) ∧ s.lastButtonMask = 0) ∨
    lastPointer s.sent = some (s.lastPointerPos, s.lastButtonMask))

/-- The recorded button mask is one that `Viewport::handle` computes from the
three buttons. -/
def MaskInv (s : State) : Prop :=
  0 ≤ s.lastButtonMask ∧ s.lastButtonMask ≤ 7

/-- Check that a trace of key messages is properly nested: each release is of the
key symbol pressed last and not yet released, and nothing stays pressed.  The
first argument is the stack of pressed key symbols, innermost first. -/
def nested : List Nat → List Msg → Bool
  | stack, [] => stack.isEmpty
  | stack, Msg.keyEvent k true :: rest => nested (k :: stack) rest
  | top :: stack, Msg.keyEvent k false :: rest => decide (k = top) && nested stack rest
  | [], Msg.keyEvent _ false :: _ => false
  | _, Msg.pointerEvent _ _ :: _ => false

/-- The six messages of "Send Ctrl-Alt-Del", in the order of the source. -/
def ctrlAltDel : List Msg :=
  [ Msg.keyEvent XK_Control_L true, Msg.keyEvent XK_Alt_L true, Msg.keyEvent XK_Delete true,
    Msg.keyEvent XK_Delete false, Msg.keyEvent XK_Alt_L false, Msg.keyEvent XK_Control_L false ]

/-! ## Lemmas on `DownMap` -/

theorem DownMap.find_set_same (m : DownMap) (c : Int) (k : Nat) :
    (m.set c k).find c = some k := by
  induction m with
  | nil => simp [DownMap.set, DownMap.find]
  | cons e r ih =>
    obtain ⟨a, v⟩ := e
    by_cases h1 : c < a
    · simp [DownMap.set, DownMap.find, h1]
    · by_cases h2 : c = a
      · simp [DownMap.set, DownMap.find, h2]
      · have h3 : ¬ a = c := fun h => h2 h.symm
        simp [DownMap.set, DownMap.find, h1, h2, h3, ih]

theorem DownMap.find_set_other (m : DownMap) (c c1 : Int) (k : Nat) (h : c1 ≠ c) :
    (m.set c k).find c1 = m.find c1 := by
  have hc : ¬ c = c1 := fun e => h e.symm
  induction m with
  | nil => simp [DownMap.set, DownMap.find, hc]
  | cons e r ih =>
    obtain ⟨a, v⟩ := e
    by_cases h1 : c < a
    · simp [DownMap.set, DownMap.find, h1, hc]
    · by_cases h2 : c = a
      · subst h2
        simp [DownMap.set, DownMap.find, hc]
      · simp only [DownMap.set, h1, h2, if_false, DownMap.find, ih]

theorem DownMap.find_erase_same (m : DownMap) (c : Int) :
    (m.erase c).find c = none := by
  induction m with
  | nil => simp [DownMap.erase, DownMap.find]
  | cons e r ih =>
    obtain ⟨a, v⟩ := e
    by_cases h : a = c
    · simp [DownMap.erase, h, ih]
    · simp [DownMap.erase, DownMap.find, h, ih]

theorem DownMap.find_erase_other (m : DownMap) (c c1 : Int) (h : c1 ≠ c) :
    (m.erase c).find c1 = m.find c1 := by
  induction m with
  | nil => simp [DownMap.erase, DownMap.find]
  | cons e r ih =>
    obtain ⟨a, v⟩ := e
    by_cases h1 : a = c
    · subst h1
      have h2 : ¬ a = c1 := fun e => h e.symm
      simp [DownMap.erase, DownMap.find, h2, ih]
    · simp only [DownMap.erase, h1, if_false, DownMap.find, ih]

theorem DownMap.mem_set (m : DownMap) (c : Int) (k : Nat) (b : Int × Nat)
    (h : b ∈ m.set c k) : b = (c, k) ∨ b ∈ m := by
  induction m with
  | nil => simpa [DownMap.set] using h
  | cons e r ih =>
    obtain ⟨a, v⟩ := e
    by_cases h1 : c < a
    · simp only [DownMap.set, h1, if_true, List.mem_cons] at h
      rcases h with h | h | h
      · exact Or.inl h
      · exact Or.inr (by simp [h])
      · exact Or.inr (List.mem_cons_of_mem _ h)
    · by_cases h2 : c = a
      · subst h2
        simp only [DownMap.set, lt_irrefl, if_false, if_true, List.mem_cons] at h
        rcases h with h | h
        · exact Or.inl h
        · exact Or.inr (List.mem_cons_of_mem _ h)
      · simp only [DownMap.set, h1, h2, if_false, List.mem_cons] at h
        rcases h with h | h
        · exact Or.inr (by simp [h])
        · rcases ih h with h3 | h3
          · exact Or.inl h3
          · exact Or.inr (List.mem_cons_of_mem _ h3)

theorem DownMap.mem_erase (m : DownMap) (c : Int) (b : Int × Nat)
    (h : b ∈ m.erase c) : b ∈ m := by
  induction m with
  | nil => simp [DownMap.erase] at h
  | cons e r ih =>
    obtain ⟨a, v⟩ := e
    by_cases h1 : a = c
    · simp only [DownMap.erase, h1, if_true] at h
      exact List.mem_cons_of_mem _ (ih h)
    · simp only [DownMap.erase, h1, if_false, List.mem_cons] at h
      rcases h with h | h
      · simp [h]
      · exact List.mem_cons_of_mem _ (ih h)

/-- Assignment keeps the entries in ascending key order. -/
theorem DownMap.set_sorted (m : DownMap) (c : Int) (k : Nat) (h : m.Sorted) :
    (m.set c k).Sorted := by
  induction m with
  | nil => simp [DownMap.set, DownMap.Sorted]
  | cons e r ih =>
    obtain ⟨a, v⟩ := e
    unfold DownMap.Sorted at h ih ⊢
    rw [List.pairwise_cons] at h
    by_cases h1 : c < a
    · simp only [DownMap.set, h1, if_true]
      refine List.pairwise_cons.mpr ⟨?_, List.pairwise_cons.mpr h⟩
      intro b hb
      rcases List.mem_cons.mp hb with hb | hb
      · rw [hb]; exact h1
      · exact lt_trans h1 (h.1 b hb)
    · by_cases h2 : c = a
      · subst h2
        simp only [DownMap.set, lt_irrefl, if_false, if_true]
        exact List.pairwise_cons.mpr ⟨fun b hb => h.1 b hb, h.2⟩
      · simp only [DownMap.set, h1, h2, if_false]
        refine List.pairwise_cons.mpr ⟨?_, ih h.2⟩
        intro b hb
        rcases DownMap.mem_set r c k b hb with hb | hb
        · rw [hb]
          exact lt_of_le_of_ne (not_lt.mp h1) (fun e => h2 e.symm)
        · exact h.1 b hb

/-- Removal keeps the entries in ascending key order. -/
theorem DownMap.erase_sorted (m : DownMap) (c : Int) (h : m.Sorted) :
    (m.erase c).Sorted := by
  induction m with
  | nil => simp [DownMap.erase, DownMap.Sorted]
  | cons e r ih =>
    obtain ⟨a, v⟩ := e
    unfold DownMap.Sorted at h ih ⊢
    rw [List.pairwise_cons] at h
    by_cases h1 : a = c
    · simp only [DownMap.erase, h1, if_true]
      exact ih h.2
    · simp only [DownMap.erase, h1, if_false]
      exact List.pairwise_cons.mpr ⟨fun b hb => h.1 b (DownMap.mem_erase r c b hb), ih h.2⟩

/-- In a sorted map the entry of a recorded key code is the only one removed. -/
theorem DownMap.erase_length (m : DownMap) (c : Int) (k : Nat) (h : m.Sorted)
    (hf : m.find c = some k) : (m.erase c).length + 1 = m.length := by
  induction m with
  | nil => simp [DownMap.find] at hf
  | cons e r ih =>
    obtain ⟨a, v⟩ := e
    unfold DownMap.Sorted at h ih
    rw [List.pairwise_cons] at h
    by_cases h1 : a = c
    · have hr : DownMap.erase r c = r := by
        have hall : ∀ b ∈ r, b.1 ≠ c := fun b hb he => by
          have := h.1 b hb
          rw [he, ← h1] at this
          exact lt_irrefl _ this
        clear ih hf h
        induction r with
        | nil => rfl
        | cons e2 r2 ih2 =>
          obtain ⟨a2, v2⟩ := e2
          have h3 : ¬ a2 = c := hall (a2, v2) (List.mem_cons_self _ _)
          simp only [DownMap.erase, h3, if_false]
          rw [ih2 (fun b hb => hall b (List.mem_cons_of_mem _ hb))]
      simp only [DownMap.erase, h1, if_true, hr, List.length_cons]
    · simp only [DownMap.find, h1, if_false] at hf
      simp only [DownMap.erase, h1, if_false, List.length_cons]
      rw [ih h.2 hf]

/-! ## Frame lemmas of the handlers -/

theorem handlePointerEvent_viewOnly (s : State) (pos : Point) (m : Int) :
    (handlePointerEvent s pos m).viewOnly = s.viewOnly := by
  unfold handlePointerEvent State.pointerEvent
  repeat' split
  all_goals rfl

theorem handlePointerEvent_downKeySym (s : State) (pos : Point) (m : Int) :
    (handlePointerEvent s pos m).downKeySym = s.downKeySym := by
  unfold handlePointerEvent State.pointerEvent
  repeat' split
  all_goals rfl

theorem handleKeyEvent_viewOnly (env : Env) (s : State) (c : Int) (t : List Nat) (d : Bool) :
    (handleKeyEvent env s c t d).viewOnly = s.viewOnly := by
  unfold handleKeyEvent State.keyEvent
  dsimp only
  repeat' split
  all_goals rfl

theorem handleKeyEvent_find_other (env : Env) (s : State) (c c1 : Int) (t : List Nat)
    (d : Bool) (h : c ≠ c1) :
    (handleKeyEvent env s c1 t d).downKeySym.find c = s.downKeySym.find c := by
  unfold handleKeyEvent State.keyEvent
  dsimp only
  repeat' split
  all_goals first
    | rfl
    | exact DownMap.find_erase_other _ _ _ h
    | exact DownMap.find_set_other _ _ _ _ h

theorem run_besides (env : Env) (c : Int) (acts : List Action) :
    ∀ s : State, (∀ a ∈ acts, a.besides c = true) →
      (run env s acts).viewOnly = s.viewOnly ∧
      (run env s acts).downKeySym.find c = s.downKeySym.find c := by
  induction acts with
  | nil => intro s _; exact ⟨rfl, rfl⟩
  | cons a rest ih =>
    intro s h
    have ha := h a (List.mem_cons_self _ _)
    have hr := ih (step env s a) (fun b hb => h b (List.mem_cons_of_mem _ hb))
    simp only [run]
    cases a with
    | key c1 t d =>
      have hne : c ≠ c1 := by
        simp [Action.besides] at ha
        exact fun e => ha e.symm
      simp only [step] at hr ⊢
      rw [hr.1, hr.2, handleKeyEvent_viewOnly, handleKeyEvent_find_other env s c c1 t d hne]
      exact ⟨rfl, rfl⟩
    | pointer pos m =>
      simp only [step] at hr ⊢
      rw [hr.1, hr.2, handlePointerEvent_viewOnly, handlePointerEvent_downKeySym]
      exact ⟨rfl, rfl⟩
    | event fl ev => simp [Action.besides] at ha
    | timeout => simp [Action.besides] at ha
    | setViewOnly b => simp [Action.besides] at ha
    | setPointerEventInterval i => simp [Action.besides] at ha

theorem handleKeyEvent_sorted (env : Env) (s : State) (c : Int) (t : List Nat) (d : Bool)
    (h : s.downKeySym.Sorted) : (handleKeyEvent env s c t d).downKeySym.Sorted := by
  unfold handleKeyEvent State.keyEvent
  dsimp only
  repeat' split
  all_goals first
    | exact h
    | exact DownMap.erase_sorted _ _ h
    | exact DownMap.set_sorted _ _ _ h

theorem run_besides_sorted (env : Env) (c : Int) (acts : List Action) :
    ∀ s : State, (∀ a ∈ acts, a.besides c = true) → s.downKeySym.Sorted →
      (run env s acts).downKeySym.Sorted := by
  induction acts with
  | nil => intro s _ h; exact h
  | cons a rest ih =>
    intro s ha h
    have h1 := ha a (List.mem_cons_self _ _)
    refine ih (step env s a) (fun b hb => ha b (List.mem_cons_of_mem _ hb)) ?_
    cases a with
    | key c1 t d => exact handleKeyEvent_sorted env s c1 t d h
    | pointer pos m =>
      show (handlePointerEvent s pos m).downKeySym.Sorted
      rw [handlePointerEvent_downKeySym]; exact h
    | event fl ev => simp [Action.besides] at h1
    | timeout => simp [Action.besides] at h1
    | setViewOnly b => simp [Action.besides] at h1
    | setPointerEventInterval i => simp [Action.besides] at h1

/-- The effect of a key release on a state that records the key code. -/
theorem handleKeyEvent_up_found (env : Env) (s : State) (c : Int) (t : List Nat) (k : Nat)
    (hv : s.viewOnly = false) (hf : s.downKeySym.find c = some k) :
    handleKeyEvent env s c t false =
      { s with sent := s.sent ++ [Msg.keyEvent k false],
               downKeySym := s.downKeySym.erase c } := by
  simp [handleKeyEvent, State.keyEvent, hv, hf]

/-- The effect of a key press that translates to a key symbol. -/
theorem handleKeyEvent_down_sym (env : Env) (s : State) (c : Int) (t : List Nat)
    (hv : s.viewOnly = false) (hk : translateKeyEvent env c t ≠ XK_VoidSymbol) :
    handleKeyEvent env s c t true =
      { s with sent := s.sent ++ [Msg.keyEvent (translateKeyEvent env c t) true],
               downKeySym := s.downKeySym.set c (translateKeyEvent env c t) } := by
  simp [handleKeyEvent, State.keyEvent, hv, hk]

/-! ## C1: a release carries the key symbol of the press -/

/-- C1. With view-only off, if the press of key code `c` with text `t1`
translates to a key symbol `k` other than `XK_VoidSymbol`, the press sends
`keyEvent(k, true)`; after any key events on other key codes and any pointer
events, the release of `c` with any text `t2` sends exactly `keyEvent(k, false)`
and changes the state only by removing the entry of `c` from `downKeySym`: the
lookup of `c` becomes empty, every other lookup is as before, and a map in key
order loses exactly one entry. -/
theorem release_sends_keysym_of_press (env : Env) (s : State) (c : Int)
    (t1 t2 : List Nat) (k : Nat) (acts : List Action)
    (hview : s.viewOnly = false)
    (hk : translateKeyEvent env c t1 = k) (hvoid : k ≠ XK_VoidSymbol)
    (hacts : ∀ a ∈ acts, a.besides c = true) :
    (handleKeyEvent env s c t1 true).sent = s.sent ++ [Msg.keyEvent k true] ∧
    (run env (handleKeyEvent env s c t1 true) acts).downKeySym.find c = some k ∧
    handleKeyEvent env (run env (handleKeyEvent env s c t1 true) acts) c t2 false =
      { run env (handleKeyEvent env s c t1 true) acts with
        sent := (run env (handleKeyEvent env s c t1 true) acts).sent ++ [Msg.keyEvent k false],
        downKeySym := (run env (handleKeyEvent env s c t1 true) acts).downKeySym.erase c } ∧
    (handleKeyEvent env (run env (handleKeyEvent env s c t1 true) acts) c t2
        false).downKeySym.find c = none ∧
    (∀ c1, c1 ≠ c →
      (handleKeyEvent env (run env (handleKeyEvent env s c t1 true) acts) c t2
          false).downKeySym.find c1 =
        (run env (handleKeyEvent env s c t1 true) acts).downKeySym.find c1) ∧
    (s.downKeySym.Sorted →
      (handleKeyEvent env (run env (handleKeyEvent env s c t1 true) acts) c t2
          false).downKeySym.length + 1 =
        (run env (handleKeyEvent env s c t1 true) acts).downKeySym.length) := by
  subst hk
  have h1 := handleKeyEvent_down_sym env s c t1 hview hvoid
  have h2 := run_besides env c acts (handleKeyEvent env s c t1 true) hacts
  have hv2 : (run env (handleKeyEvent env s c t1 true) acts).viewOnly = false := by
    rw [h2.1, handleKeyEvent_viewOnly]; exact hview
  have hf2 : (run env (handleKeyEvent env s c t1 true) acts).downKeySym.find c
      = some (translateKeyEvent env c t1) := by
    rw [h2.2, h1]; exact DownMap.find_set_same _ _ _
  have h3 := handleKeyEvent_up_found env _ c t2 _ hv2 hf2
  refine ⟨by rw [h1], hf2, h3, ?_, ?_, ?_⟩
  · rw [h3]; exact DownMap.find_erase_same _ _
  · intro c1 hc1
    rw [h3]; exact DownMap.find_erase_other _ _ _ hc1
  · intro hs
    have hs2 := run_besides_sorted env c acts _ hacts
      (handleKeyEvent_sorted env s c t1 true hs)
    rw [h3]
    exact DownMap.erase_length _ c _ hs2 hf2

/-- C1 at a concrete run: the key `a` is pressed with the text "a", the key `b`
is pressed and the pointer moves, then `a` is released with the text "A". -/
theorem release_sends_keysym_of_press_witness :
    (handleKeyEvent asciiEnv
      (run asciiEnv (handleKeyEvent asciiEnv (State.init false 0) 0x61 [0x61] true)
        [Action.key 0x62 [0x62] true, Action.pointer (3, 4) 0]) 0x61 [0x41] false).sent
      = (run asciiEnv (handleKeyEvent asciiEnv (State.init false 0) 0x61 [0x61] true)
        [Action.key 0x62 [0x62] true, Action.pointer (3, 4) 0]).sent
        ++ [Msg.keyEvent 0x61 false] :=
  congrArg State.sent
    (release_sends_keysym_of_press asciiEnv (State.init false 0) 0x61 [0x61] [0x41] 0x61
      [Action.key 0x62 [0x62] true, Action.pointer (3, 4) 0]
      rfl (by decide) (by decide) (by decide)).2.2.1

/-! ## C2: what `FL_UNFOCUS` leaves pressed -/

/-- C2. After the run `repeatedPress` with view-only off the messages sent are
`a` down, `A` down, `A` up: the second press overwrote the entry of the key
code, so `FL_UNFOCUS` releases `A` only and the most recent message for the key
symbol `a` is its press.  The trace does not satisfy `AllReleased`. -/
theorem unfocus_misses_overwritten_keysym :
    (run asciiEnv (State.init false 0) repeatedPress).sent
      = [Msg.keyEvent 0x61 true, Msg.keyEvent 0x41 true, Msg.keyEvent 0x41 false] ∧
    (run asciiEnv (State.init false 0) repeatedPress).downKeySym = [] ∧
    lastKey 0x61 (run asciiEnv (State.init false 0) repeatedPress).sent = some true ∧
    ¬ AllReleased (run asciiEnv (State.init false 0) repeatedPress).sent := by
  have h : (run asciiEnv (State.init false 0) repeatedPress).sent
      = [Msg.keyEvent 0x61 true, Msg.keyEvent 0x41 true, Msg.keyEvent 0x41 false] := by
    decide
  refine ⟨h, by decide, by decide, ?_⟩
  intro hall
  have h1 := hall 0x61 (by rw [h]; decide)
  rw [h] at h1
  revert h1
  decide

/-! ## What each handler leaves alone -/

theorem SamePointerSide.refl (s : State) : SamePointerSide s s :=
  ⟨rfl, rfl, rfl, rfl, rfl, rfl⟩

theorem lastPointer_append_key (l : List Msg) (k : Nat) (d : Bool) :
    lastPointer (l ++ [Msg.keyEvent k d]) = lastPointer l := by
  induction l with
  | nil => rfl
  | cons m r ih =>
    cases m with
    | keyEvent k1 d1 => simpa [lastPointer] using ih
    | pointerEvent pos b => simp [lastPointer, ih]

theorem lastPointer_append_pointer (l : List Msg) (pos : Point) (b : Int) :
    lastPointer (l ++ [Msg.pointerEvent pos b]) = some (pos, b) := by
  induction l with
  | nil => rfl
  | cons m r ih =>
    cases m with
    | keyEvent k1 d1 => simpa [lastPointer] using ih
    | pointerEvent pos1 b1 => simp [lastPointer, ih]

theorem keyEvent_samePointerSide (s : State) (k : Nat) (d : Bool) :
    SamePointerSide s (s.keyEvent k d) :=
  ⟨rfl, rfl, rfl, rfl, rfl, lastPointer_append_key _ _ _⟩

theorem SamePointerSide.trans {a b c : State} (h1 : SamePointerSide a b)
    (h2 : SamePointerSide b c) : SamePointerSide a c :=
  ⟨h2.1.trans h1.1, h2.2.1.trans h1.2.1, h2.2.2.1.trans h1.2.2.1,
    h2.2.2.2.1.trans h1.2.2.2.1, h2.2.2.2.2.1.trans h1.2.2.2.2.1,
    h2.2.2.2.2.2.trans h1.2.2.2.2.2⟩

theorem handleKeyEvent_samePointerSide (env : Env) (s : State) (c : Int) (t : List Nat)
    (d : Bool) : SamePointerSide s (handleKeyEvent env s c t d) := by
  unfold handleKeyEvent
  dsimp only
  repeat' split
  all_goals first
    | exact SamePointerSide.refl s
    | exact keyEvent_samePointerSide _ _ _
    | exact ⟨rfl, rfl, rfl, rfl, rfl, lastPointer_append_key _ _ _⟩

theorem call_samePointerSide (s : State) (c : Call) : SamePointerSide s (s.call c) :=
  ⟨rfl, rfl, rfl, rfl, rfl, rfl⟩

theorem popupContextMenu_samePointerSide (s : State) (m : Option MenuItem) :
    SamePointerSide s (popupContextMenu s m) := by
  cases m with
  | none => exact SamePointerSide.refl s
  | some m =>
    simp only [popupContextMenu]
    split
    · exact call_samePointerSide s _
    split
    · split
      · exact keyEvent_samePointerSide s _ _
      · exact SamePointerSide.refl s
    split
    · split
      · exact keyEvent_samePointerSide s _ _
      · exact SamePointerSide.refl s
    split
    · split
      · exact (keyEvent_samePointerSide s _ _).trans (keyEvent_samePointerSide _ _ _)
      · exact SamePointerSide.refl s
    split
    · split
      · exact (keyEvent_samePointerSide s _ _).trans
          ((keyEvent_samePointerSide _ _ _).trans
            ((keyEvent_samePointerSide _ _ _).trans
              ((keyEvent_samePointerSide _ _ _).trans
                ((keyEvent_samePointerSide _ _ _).trans (keyEvent_samePointerSide _ _ _)))))
      · exact SamePointerSide.refl s
    split
    · exact call_samePointerSide s _
    split
    · exact call_samePointerSide s _
    split
    · exact call_samePointerSide s _
    split
    · exact call_samePointerSide s _
    · exact SamePointerSide.refl s

theorem releaseAll_samePointerSide (m : DownMap) :
    ∀ s : State, SamePointerSide s (releaseAll m s) := by
  induction m with
  | nil => intro s; exact SamePointerSide.refl s
  | cons e r ih =>
    intro s
    obtain ⟨a, v⟩ := e
    exact (keyEvent_samePointerSide s v false).trans (ih _)

/-- The loop of `FL_UNFOCUS` appends one release per entry, in map order, and
changes nothing else. -/
theorem releaseAll_eq (m : DownMap) :
    ∀ s : State, releaseAll m s =
      { s with sent := s.sent ++ m.map (fun e => Msg.keyEvent e.2 false) } := by
  induction m with
  | nil => intro s; simp [releaseAll]
  | cons e r ih =>
    intro s
    obtain ⟨a, v⟩ := e
    simp [releaseAll, ih, State.keyEvent]

/-! ## Runs on which `FL_UNFOCUS` releases every pressed key symbol -/

theorem lastKey_append_key (k k1 : Nat) (d : Bool) (l : List Msg) :
    lastKey k (l ++ [Msg.keyEvent k1 d]) = if k1 = k then some d else lastKey k l := by
  induction l with
  | nil => simp [lastKey]
  | cons m r ih =>
    cases m with
    | pointerEvent pos b => simpa [lastKey] using ih
    | keyEvent k2 d2 =>
      have ih1 : lastKey k (r.append [Msg.keyEvent k1 d])
          = if k1 = k then some d else lastKey k r := ih
      simp only [List.cons_append, lastKey]
      rw [ih1]
      by_cases h : k1 = k
      · simp [h]
      · simp [h]

theorem lastKey_ne_none (k : Nat) (d : Bool) (l : List Msg) (h : Msg.keyEvent k d ∈ l) :
    lastKey k l ≠ none := by
  induction l with
  | nil => simp at h
  | cons m r ih =>
    cases m with
    | pointerEvent pos b =>
      simp only [List.mem_cons] at h
      rcases h with h | h
      · cases h
      · simpa [lastKey] using ih h
    | keyEvent k2 d2 =>
      simp only [lastKey]
      cases hr : lastKey k r with
      | some b => simp
      | none =>
        simp only [List.mem_cons] at h
        rcases h with h | h
        · cases h
          simp
        · exact absurd hr (ih h)

theorem DownMap.mem_of_find (m : DownMap) (c : Int) (k : Nat) (h : m.find c = some k) :
    (c, k) ∈ m := by
  induction m with
  | nil => simp [DownMap.find] at h
  | cons e r ih =>
    obtain ⟨a, v⟩ := e
    by_cases hac : a = c
    · simp only [DownMap.find, hac, if_true, Option.some.injEq] at h
      simp [hac, h]
    · simp only [DownMap.find, hac, if_false] at h
      exact List.mem_cons_of_mem _ (ih h)

theorem lastKey_append_releases (k : Nat) (m : DownMap) :
    ∀ l : List Msg,
      (lastKey k (l ++ m.map (fun e => Msg.keyEvent e.2 false)) = some false ∨
        lastKey k (l ++ m.map (fun e => Msg.keyEvent e.2 false)) = lastKey k l) ∧
      ((∃ c, (c, k) ∈ m) →
        lastKey k (l ++ m.map (fun e => Msg.keyEvent e.2 false)) = some false) := by
  induction m with
  | nil => intro l; simp
  | cons e r ih =>
    intro l
    obtain ⟨a, v⟩ := e
    have h1 := ih (l ++ [Msg.keyEvent v false])
    have e1 : l ++ List.map (fun e => Msg.keyEvent e.2 false) ((a, v) :: r)
        = (l ++ [Msg.keyEvent v false]) ++ List.map (fun e => Msg.keyEvent e.2 false) r := by
      simp
    rw [e1]
    have h2 := lastKey_append_key k v false l
    by_cases hv : v = k
    · rw [if_pos hv] at h2
      have h3 : lastKey k ((l ++ [Msg.keyEvent v false])
          ++ List.map (fun e => Msg.keyEvent e.2 false) r) = some false := by
        rcases h1.1 with h | h
        · exact h
        · rw [h, h2]
      exact ⟨Or.inl h3, fun _ => h3⟩
    · rw [if_neg hv] at h2
      refine ⟨?_, ?_⟩
      · rcases h1.1 with h | h
        · exact Or.inl h
        · exact Or.inr (h.trans h2)
      · rintro ⟨c, hc⟩
        simp only [List.mem_cons, Prod.mk.injEq] at hc
        rcases hc with hc | hc
        · exact absurd hc.2.symm hv
        · exact h1.2 ⟨c, hc⟩

theorem handleKeyEvent_up_keyInv (env : Env) (s : State) (c : Int) (t : List Nat)
    (hv : s.viewOnly = false) (hi : KeyInv s) : KeyInv (handleKeyEvent env s c t false) := by
  cases hf : s.downKeySym.find c with
  | none =>
    have : handleKeyEvent env s c t false = s := by simp [handleKeyEvent, hv, hf]
    rw [this]; exact hi
  | some k0 =>
    rw [handleKeyEvent_up_found env s c t k0 hv hf]
    intro k hk
    simp only [lastKey_append_key] at hk
    by_cases hk0 : k0 = k
    · simp [hk0] at hk
    · rw [if_neg hk0] at hk
      obtain ⟨c1, hc1⟩ := hi k hk
      have hne : c1 ≠ c := by
        intro he
        rw [he, hf] at hc1
        exact hk0 (Option.some.inj hc1)
      exact ⟨c1, by simpa [DownMap.find_erase_other _ _ _ hne] using hc1⟩

theorem handleKeyEvent_down_keyInv (env : Env) (s : State) (c : Int) (t : List Nat)
    (hv : s.viewOnly = false) (hi : KeyInv s)
    (hno : translateKeyEvent env c t = XK_VoidSymbol ∨ s.downKeySym.find c = none ∨
      s.downKeySym.find c = some (translateKeyEvent env c t)) :
    KeyInv (handleKeyEvent env s c t true) := by
  by_cases hvoid : translateKeyEvent env c t = XK_VoidSymbol
  · have : handleKeyEvent env s c t true = s := by simp [handleKeyEvent, hv, hvoid]
    rw [this]; exact hi
  · rw [handleKeyEvent_down_sym env s c t hv hvoid]
    intro k hk
    simp only [lastKey_append_key] at hk
    by_cases hk0 : translateKeyEvent env c t = k
    · exact ⟨c, by simpa [hk0] using DownMap.find_set_same s.downKeySym c k⟩
    · rw [if_neg hk0] at hk
      obtain ⟨c1, hc1⟩ := hi k hk
      have hne : c1 ≠ c := by
        intro he
        rw [he] at hc1
        rcases hno with h | h | h
        · exact hvoid h
        · rw [h] at hc1; cases hc1
        · rw [h] at hc1; exact hk0 (Option.some.inj hc1)
      exact ⟨c1, by simpa [DownMap.find_set_other _ _ _ _ hne] using hc1⟩

theorem run_keyInv (env : Env) (acts : List Action) :
    ∀ s : State, s.viewOnly = false → KeyInv s → NoOverwrite env s acts →
      KeyInv (run env s acts) := by
  induction acts with
  | nil => intro s _ hi _; exact hi
  | cons a rest ih =>
    intro s hv hi hno
    cases a with
    | key c t d =>
      cases d with
      | true =>
        simp only [NoOverwrite] at hno
        have hv1 : (handleKeyEvent env s c t true).viewOnly = false := by
          rw [handleKeyEvent_viewOnly]; exact hv
        exact ih (handleKeyEvent env s c t true) hv1
          (handleKeyEvent_down_keyInv env s c t hv hi hno.1) hno.2
      | false =>
        simp only [NoOverwrite] at hno
        have hv1 : (handleKeyEvent env s c t false).viewOnly = false := by
          rw [handleKeyEvent_viewOnly]; exact hv
        exact ih (handleKeyEvent env s c t false) hv1
          (handleKeyEvent_up_keyInv env s c t hv hi) hno
    | event fl ev => simp [NoOverwrite] at hno
    | timeout => simp [NoOverwrite] at hno
    | pointer pos m => simp [NoOverwrite] at hno
    | setViewOnly b => simp [NoOverwrite] at hno
    | setPointerEventInterval i => simp [NoOverwrite] at hno

/-- On a run of key presses and releases from construction with
view-only off in which no held key code is pressed again with another key
symbol, every key symbol that was pressed ends released once `FL_UNFOCUS` has
been handled. -/
theorem unfocus_releases_without_overwrite (env : Env) (fl : Fl) (i : Int)
    (acts : List Action) (hno : NoOverwrite env (State.init false i) acts) :
    AllReleased (handle env fl (run env (State.init false i) acts) FL_UNFOCUS).1.sent := by
  have hi : KeyInv (run env (State.init false i) acts) :=
    run_keyInv env acts _ rfl (fun k hk => by simp [State.init, lastKey] at hk) hno
  have hu : (handle env fl (run env (State.init false i) acts) FL_UNFOCUS).1.sent
      = (run env (State.init false i) acts).sent
        ++ (run env (State.init false i) acts).downKeySym.map
          (fun e => Msg.keyEvent e.2 false) := by
    simp [handle, FL_UNFOCUS, FL_ENTER, FL_PUSH, FL_RELEASE, FL_DRAG, FL_MOVE,
      FL_MOUSEWHEEL, FL_FOCUS, releaseAll_eq]
  rw [hu]
  intro k hk
  have hrel := lastKey_append_releases k (run env (State.init false i) acts).downKeySym
    (run env (State.init false i) acts).sent
  have hold : Msg.keyEvent k true ∈ (run env (State.init false i) acts).sent := by
    rcases List.mem_append.mp hk with h | h
    · exact h
    · simp at h
  have hsome := lastKey_ne_none k true _ hold
  cases hl : lastKey k (run env (State.init false i) acts).sent with
  | none => exact absurd hl hsome
  | some b =>
    cases b with
    | true =>
      obtain ⟨c, hc⟩ := hi k hl
      exact hrel.2 ⟨c, DownMap.mem_of_find _ _ _ hc⟩
    | false =>
      rcases hrel.1 with h | h
      · exact h
      · rw [h, hl]

/-! ## The three cases of `handlePointerEvent` -/

theorem handlePointerEvent_viewOnly_on (s : State) (pos : Point) (m : Int)
    (hv : s.viewOnly = true) : handlePointerEvent s pos m = s := by
  simp [handlePointerEvent, hv]

theorem handlePointerEvent_send (s : State) (pos : Point) (m : Int)
    (hv : s.viewOnly = false)
    (h : s.pointerEventInterval = 0 ∨ m ≠ s.lastButtonMask) :
    handlePointerEvent s pos m =
      { s with sent := s.sent ++ [Msg.pointerEvent pos m],
               lastPointerPos := pos, lastButtonMask := m } := by
  simp only [handlePointerEvent, hv, State.pointerEvent]
  rw [if_pos h]
  rfl

theorem handlePointerEvent_defer (s : State) (pos : Point) (m : Int)
    (hv : s.viewOnly = false)
    (h : ¬ (s.pointerEventInterval = 0 ∨ m ≠ s.lastButtonMask)) :
    handlePointerEvent s pos m =
      { s with pointerTimeouts :=
                 if s.pointerTimeouts = [] then [s.pointerEventInterval]
                 else s.pointerTimeouts,
               lastPointerPos := pos, lastButtonMask := m } := by
  simp only [handlePointerEvent, hv, State.pointerEvent]
  rw [if_neg h]
  by_cases ht : s.pointerTimeouts = []
  · simp [ht, hv]
  · simp [ht, hv]

/-! ## Invariants of the pointer path -/

theorem PointerInv.at_construction (v : Bool) (i : Int) : PointerInv (State.init v i) :=
  ⟨by simp [State.init], fun _ => Or.inl ⟨rfl, rfl, rfl⟩⟩

theorem PointerInv.of_same {s s1 : State} (h : SamePointerSide s s1) (hi : PointerInv s) :
    PointerInv s1 := by
  obtain ⟨_, _, hp, hb, ht, hl⟩ := h
  unfold PointerInv
  rw [ht, hp, hb, hl]
  exact hi

theorem PointerInv.param {s s1 : State} (hp : s1.lastPointerPos = s.lastPointerPos)
    (hb : s1.lastButtonMask = s.lastButtonMask) (ht : s1.pointerTimeouts = s.pointerTimeouts)
    (hl : s1.sent = s.sent) (hi : PointerInv s) : PointerInv s1 := by
  unfold PointerInv
  rw [ht, hp, hb, hl]
  exact hi

theorem handlePointerEvent_pointerInv (s : State) (pos : Point) (m : Int)
    (hi : PointerInv s) : PointerInv (handlePointerEvent s pos m) := by
  cases hv : s.viewOnly with
  | true => rw [handlePointerEvent_viewOnly_on s pos m hv]; exact hi
  | false =>
    by_cases h : s.pointerEventInterval = 0 ∨ m ≠ s.lastButtonMask
    · rw [handlePointerEvent_send s pos m hv h]
      exact ⟨hi.1, fun _ => Or.inr (lastPointer_append_pointer _ _ _)⟩
    · rw [handlePointerEvent_defer s pos m hv h]
      by_cases ht : s.pointerTimeouts = []
      · refine ⟨by simp [ht], fun h0 => ?_⟩
        simp [ht] at h0
      · refine ⟨by simpa [ht] using hi.1, fun h0 => ?_⟩
        simp [ht] at h0

theorem firePointerTimeout_pointerInv (s : State) (hi : PointerInv s) :
    PointerInv (firePointerTimeout s) := by
  unfold firePointerTimeout
  split
  · exact hi
  · rename_i x rest hx
    have hlen := hi.1
    rw [hx] at hlen
    have hrest : rest = [] := by
      cases rest with
      | nil => rfl
      | cons y ys => simp at hlen
    subst hrest
    exact ⟨by simp [handlePointerTimeout, State.pointerEvent],
      fun _ => Or.inr (lastPointer_append_pointer _ _ _)⟩

theorem handle_pointerInv (env : Env) (fl : Fl) (s : State) (ev : Int)
    (hi : PointerInv s) : PointerInv (handle env fl s ev).1 := by
  unfold handle
  dsimp only
  split
  · exact hi
  split
  · split
    · exact handlePointerEvent_pointerInv _ _ _ (handlePointerEvent_pointerInv _ _ _ hi)
    · exact handlePointerEvent_pointerInv _ _ _ hi
  split
  · exact hi
  split
  · refine PointerInv.of_same ?_ hi
    have h := releaseAll_samePointerSide s.downKeySym s
    exact ⟨h.1, h.2.1, h.2.2.1, h.2.2.2.1, h.2.2.2.2.1, h.2.2.2.2.2⟩
  split
  · split
    · exact PointerInv.of_same (popupContextMenu_samePointerSide _ _) hi
    · exact PointerInv.of_same (handleKeyEvent_samePointerSide _ _ _ _ _) hi
  split
  · exact PointerInv.of_same (handleKeyEvent_samePointerSide _ _ _ _ _) hi
  · exact hi

theorem step_pointerInv (env : Env) (s : State) (a : Action) (hi : PointerInv s) :
    PointerInv (step env s a) := by
  cases a with
  | event fl ev => exact handle_pointerInv env fl s ev hi
  | timeout => exact firePointerTimeout_pointerInv s hi
  | pointer pos m => exact handlePointerEvent_pointerInv s pos m hi
  | key c t d => exact PointerInv.of_same (handleKeyEvent_samePointerSide _ _ _ _ _) hi
  | setViewOnly b => exact PointerInv.param rfl rfl rfl rfl hi
  | setPointerEventInterval i => exact PointerInv.param rfl rfl rfl rfl hi

theorem run_pointerInv (env : Env) (acts : List Action) :
    ∀ s : State, PointerInv s → PointerInv (run env s acts) := by
  induction acts with
  | nil => intro s h; exact h
  | cons a rest ih => intro s h; exact ih _ (step_pointerInv env s a h)

theorem Reachable.pointerInv {env : Env} {s : State} (h : Reachable env s) :
    PointerInv s := by
  obtain ⟨v, i, acts, rfl⟩ := h
  exact run_pointerInv env acts _ (PointerInv.at_construction v i)

theorem reachable_of_run (env : Env) (v : Bool) (i : Int) (acts : List Action) :
    Reachable env (run env (State.init v i) acts) :=
  ⟨v, i, acts, rfl⟩

theorem lastPointer_eq_none_iff (l : List Msg) :
    lastPointer l = none ↔ ∀ pos b, Msg.pointerEvent pos b ∉ l := by
  induction l with
  | nil => simp [lastPointer]
  | cons m r ih =>
    cases m with
    | keyEvent k d => simp [lastPointer, ih]
    | pointerEvent pos1 b1 =>
      constructor
      · intro h
        simp only [lastPointer] at h
        split at h <;> simp at h
      · intro h
        exact absurd (List.mem_cons_self _ _) (h pos1 b1)

/-! ## C3: the debounce decision -/

/-- C3. In every reachable state with view-only off, `handlePointerEvent(pos, m)`
sends exactly the one message `pointerEvent(pos, m)` and touches no timeout when
`pointerEventInterval == 0` or `m` differs from `lastButtonMask`; otherwise it
sends nothing and leaves exactly one pointer timeout pending, which is a new one
of `pointerEventInterval` milliseconds when none was pending and the pending one
otherwise.  In both cases `lastPointerPos = pos` and `lastButtonMask = m`
afterwards. -/
theorem pointer_debounce (env : Env) (s : State) (pos : Point) (m : Int)
    (hr : Reachable env s) (hv : s.viewOnly = false) :
    ((s.pointerEventInterval = 0 ∨ m ≠ s.lastButtonMask) →
      (handlePointerEvent s pos m).sent = s.sent ++ [Msg.pointerEvent pos m] ∧
      (handlePointerEvent s pos m).pointerTimeouts = s.pointerTimeouts) ∧
    (¬ (s.pointerEventInterval = 0 ∨ m ≠ s.lastButtonMask) →
      (handlePointerEvent s pos m).sent = s.sent ∧
      (handlePointerEvent s pos m).pointerTimeouts.length = 1 ∧
      (s.pointerTimeouts = [] →
        (handlePointerEvent s pos m).pointerTimeouts = [s.pointerEventInterval]) ∧
      (s.pointerTimeouts ≠ [] →
        (handlePointerEvent s pos m).pointerTimeouts = s.pointerTimeouts)) ∧
    (handlePointerEvent s pos m).lastPointerPos = pos ∧
    (handlePointerEvent s pos m).lastButtonMask = m := by
  have hlen := hr.pointerInv.1
  by_cases h : s.pointerEventInterval = 0 ∨ m ≠ s.lastButtonMask
  · rw [handlePointerEvent_send s pos m hv h]
    exact ⟨fun _ => ⟨rfl, rfl⟩, fun hn => absurd h hn, rfl, rfl⟩
  · rw [handlePointerEvent_defer s pos m hv h]
    refine ⟨fun hp => absurd hp h, fun _ => ⟨rfl, ?_, ?_, ?_⟩, rfl, rfl⟩
    · by_cases ht : s.pointerTimeouts = []
      · simp [ht]
      · have hpos : 0 < s.pointerTimeouts.length := List.length_pos.mpr ht
        simp only [ht, if_false]
        omega
    · intro ht
      simp [ht]
    · intro ht
      simp [ht]

/-- C3 at a concrete state: after one deferred pointer event with an interval of
10 ms a timeout is pending; a second event with the same mask sends nothing,
keeps that single timeout and records the new position. -/
theorem pointer_debounce_witness :
    (handlePointerEvent (run asciiEnv (State.init false 10) [Action.pointer (1, 1) 0])
        (2, 2) 0).sent = [] ∧
    (handlePointerEvent (run asciiEnv (State.init false 10) [Action.pointer (1, 1) 0])
        (2, 2) 0).pointerTimeouts = [10] ∧
    (handlePointerEvent (run asciiEnv (State.init false 10) [Action.pointer (1, 1) 0])
        (2, 2) 0).lastPointerPos = (2, 2) :=
  have h := pointer_debounce asciiEnv
    (run asciiEnv (State.init false 10) [Action.pointer (1, 1) 0]) (2, 2) 0
    (reachable_of_run asciiEnv false 10 [Action.pointer (1, 1) 0]) rfl
  ⟨(h.2.1 (by decide)).1, (h.2.1 (by decide)).2.2.2 (by decide), h.2.2.1⟩

/-! ## C10: the pointer state the server knows -/

/-- C10. In every state reachable from construction (by pointer events, firings
of a pending pointer timeout and changes of `viewOnly` or `pointerEventInterval`,
and also by any other event or key call), if no pointer timeout is pending then
either no pointer message is in the trace and `lastPointerPos`, `lastButtonMask`
still are `(0, 0)` and `0`, or the most recent pointer message of the trace
carries exactly `lastPointerPos` and `lastButtonMask`. -/
theorem pointer_never_stale (env : Env) (s : State) (hr : Reachable env s)
    (ht : s.pointerTimeouts = []) :
    ((∀ pos b, Msg.pointerEvent pos b ∉ s.sent) ∧
      s.lastPointerPos = (0, 0) ∧ s.lastButtonMask = 0) ∨
    lastPointer s.sent = some (s.lastPointerPos, s.lastButtonMask) := by
  rcases hr.pointerInv.2 ht with h | h
  · exact Or.inl ⟨(lastPointer_eq_none_iff _).mp h.1, h.2⟩
  · exact Or.inr h

/-- C10 at a concrete run: an event is deferred, the interval is set to 0, a
second event is sent at once and the timeout then fires; the last pointer
message is the state the widget holds. -/
theorem pointer_never_stale_witness :
    lastPointer (run asciiEnv (State.init false 10)
        [Action.pointer (1, 1) 0, Action.setPointerEventInterval 0,
          Action.pointer (2, 2) 1, Action.timeout]).sent = some ((2, 2), 1) :=
  (pointer_never_stale asciiEnv
    (run asciiEnv (State.init false 10)
      [Action.pointer (1, 1) 0, Action.setPointerEventInterval 0,
        Action.pointer (2, 2) 1, Action.timeout])
    (reachable_of_run asciiEnv false 10 _) (by decide)).resolve_left
    (fun h => absurd h.2.2 (by decide))

/-! ## C4: wheel events -/

theorem buttonMaskOf_eq (fl : Fl) :
    buttonMaskOf fl = (if fl.event_button1 then 1 else 0) + (if fl.event_button2 then 2 else 0)
      + (if fl.event_button3 then 4 else 0) := by
  unfold buttonMaskOf
  cases fl.event_button1 <;> cases fl.event_button2 <;> cases fl.event_button3 <;> decide

theorem buttonMaskOf_range (fl : Fl) : 0 ≤ buttonMaskOf fl ∧ buttonMaskOf fl ≤ 7 := by
  unfold buttonMaskOf
  cases fl.event_button1 <;> cases fl.event_button2 <;> cases fl.event_button3 <;> decide

theorem lor_wheel_ne (b w : Int) (h0 : 0 ≤ b) (h7 : b ≤ 7) (hw : w = 8 ∨ w = 16) :
    Int.lor b w ≠ b ∧ (Int.lor b w < 0 ∨ 7 < Int.lor b w) := by
  rcases hw with rfl | rfl <;> interval_cases b <;> decide

theorem handlePointerEvent_lastButtonMask (s : State) (pos : Point) (m : Int) :
    (handlePointerEvent s pos m).lastButtonMask = if s.viewOnly then s.lastButtonMask else m := by
  cases hv : s.viewOnly with
  | true => rw [handlePointerEvent_viewOnly_on s pos m hv]; rfl
  | false =>
    by_cases h : s.pointerEventInterval = 0 ∨ m ≠ s.lastButtonMask
    · rw [handlePointerEvent_send s pos m hv h]; rfl
    · rw [handlePointerEvent_defer s pos m hv h]; rfl

theorem handlePointerEvent_maskInv (s : State) (pos : Point) (m : Int)
    (h0 : 0 ≤ m) (h7 : m ≤ 7) (hi : MaskInv s) : MaskInv (handlePointerEvent s pos m) := by
  unfold MaskInv
  rw [handlePointerEvent_lastButtonMask]
  split
  · exact hi
  · exact ⟨h0, h7⟩

theorem handle_maskInv (env : Env) (fl : Fl) (s : State) (ev : Int)
    (hi : MaskInv s) : MaskInv (handle env fl s ev).1 := by
  have hb := buttonMaskOf_range fl
  unfold handle
  dsimp only
  split
  · exact hi
  split
  · split
    · unfold MaskInv
      rw [handlePointerEvent_lastButtonMask, handlePointerEvent_viewOnly,
        handlePointerEvent_lastButtonMask]
      cases s.viewOnly with
      | true => exact hi
      | false => exact hb
    · exact handlePointerEvent_maskInv _ _ _ hb.1 hb.2 hi
  split
  · exact hi
  split
  · unfold MaskInv
    rw [show ({ releaseAll s.downKeySym s with downKeySym := [] } : State).lastButtonMask
        = (releaseAll s.downKeySym s).lastButtonMask from rfl,
      (releaseAll_samePointerSide s.downKeySym s).2.2.2.1]
    exact hi
  split
  · split
    · unfold MaskInv
      rw [(popupContextMenu_samePointerSide s fl.popup).2.2.2.1]
      exact hi
    · unfold MaskInv
      rw [(handleKeyEvent_samePointerSide env s _ _ _).2.2.2.1]
      exact hi
  split
  · unfold MaskInv
    rw [(handleKeyEvent_samePointerSide env s _ _ _).2.2.2.1]
    exact hi
  · exact hi

theorem firePointerTimeout_maskInv (s : State) (hi : MaskInv s) :
    MaskInv (firePointerTimeout s) := by
  unfold firePointerTimeout
  split
  · exact hi
  · exact hi

theorem run_maskInv (env : Env) (acts : List Action) :
    ∀ s : State, (∀ a ∈ acts, a.viaToolkit = true) → MaskInv s → MaskInv (run env s acts) := by
  induction acts with
  | nil => intro s _ h; exact h
  | cons a rest ih =>
    intro s ha h
    refine ih _ (fun b hb => ha b (List.mem_cons_of_mem _ hb)) ?_
    have h1 := ha a (List.mem_cons_self _ _)
    cases a with
    | event fl ev => exact handle_maskInv env fl s ev h
    | timeout => exact firePointerTimeout_maskInv s h
    | pointer pos m => simp [Action.viaToolkit] at h1
    | key c t d => simp [Action.viaToolkit] at h1
    | setViewOnly b => exact h
    | setPointerEventInterval i => exact h

theorem ReachableViaHandle.maskInv {env : Env} {s : State} (h : ReachableViaHandle env s) :
    MaskInv s := by
  obtain ⟨v, i, acts, ha, rfl⟩ := h
  exact run_maskInv env acts _ ha ⟨le_refl _, by simp [State.init]⟩

theorem reachableViaHandle_of_run (env : Env) (v : Bool) (i : Int) (acts : List Action)
    (h : ∀ a ∈ acts, a.viaToolkit = true) :
    ReachableViaHandle env (run env (State.init v i) acts) :=
  ⟨v, i, acts, h, rfl⟩

/-- C4. In every state reached through `Viewport::handle`, the pointer timeout
callback and parameter changes, with view-only off and whatever
`pointerEventInterval` is, handling `FL_MOUSEWHEEL` returns 1 and changes the
state exactly by sending `pointerEvent(p, b | w)` then `pointerEvent(p, b)` and
recording `p` and `b`, where `p` is the event position minus the widget origin,
`b` is the mask of the held buttons 1 to 3 (values 1, 2, 4, so `b` is in 0..7)
and `w` is 8 when `event_dy < 0` and 16 otherwise.  The pending pointer
timeouts are unchanged. -/
theorem wheel_press_then_release (env : Env) (fl : Fl) (s : State)
    (hr : ReachableViaHandle env s) (hv : s.viewOnly = false) :
    handle env fl s FL_MOUSEWHEEL =
      ({ s with
          sent := s.sent ++
            [ Msg.pointerEvent (fl.event_x - fl.x, fl.event_y - fl.y)
                (Int.lor (buttonMaskOf fl) (if fl.event_dy < 0 then 8 else 16)),
              Msg.pointerEvent (fl.event_x - fl.x, fl.event_y - fl.y) (buttonMaskOf fl) ],
          lastPointerPos := (fl.event_x - fl.x, fl.event_y - fl.y),
          lastButtonMask := buttonMaskOf fl }, 1) ∧
    (handle env fl s FL_MOUSEWHEEL).1.pointerTimeouts = s.pointerTimeouts ∧
    0 ≤ buttonMaskOf fl ∧ buttonMaskOf fl ≤ 7 ∧
    buttonMaskOf fl = (if fl.event_button1 then 1 else 0)
      + (if fl.event_button2 then 2 else 0) + (if fl.event_button3 then 4 else 0) := by
  have hb := buttonMaskOf_range fl
  have hm := hr.maskInv
  have hw : (if fl.event_dy < 0 then (8 : Int) else 16) = 8
      ∨ (if fl.event_dy < 0 then (8 : Int) else 16) = 16 := by
    split
    · exact Or.inl rfl
    · exact Or.inr rfl
  have hne := lor_wheel_ne (buttonMaskOf fl) _ hb.1 hb.2 hw
  have h1 : Int.lor (buttonMaskOf fl) (if fl.event_dy < 0 then 8 else 16) ≠ s.lastButtonMask := by
    intro he
    rcases hne.2 with h | h
    · rw [he] at h; exact absurd hm.1 (not_le.mpr h)
    · rw [he] at h; exact absurd hm.2 (not_le.mpr h)
  have e1 := handlePointerEvent_send s (fl.event_x - fl.x, fl.event_y - fl.y)
    (Int.lor (buttonMaskOf fl) (if fl.event_dy < 0 then 8 else 16)) hv (Or.inr h1)
  have e2 := handlePointerEvent_send
    (handlePointerEvent s (fl.event_x - fl.x, fl.event_y - fl.y)
      (Int.lor (buttonMaskOf fl) (if fl.event_dy < 0 then 8 else 16)))
    (fl.event_x - fl.x, fl.event_y - fl.y) (buttonMaskOf fl)
    (by rw [handlePointerEvent_viewOnly]; exact hv)
    (Or.inr (by rw [e1]; exact fun h => hne.1 h.symm))
  have hmain : handle env fl s FL_MOUSEWHEEL =
      (handlePointerEvent
        (handlePointerEvent s (fl.event_x - fl.x, fl.event_y - fl.y)
          (Int.lor (buttonMaskOf fl) (if fl.event_dy < 0 then 8 else 16)))
        (fl.event_x - fl.x, fl.event_y - fl.y) (buttonMaskOf fl), 1) := by
    simp [handle, FL_MOUSEWHEEL, FL_ENTER, FL_PUSH, FL_RELEASE, FL_DRAG, FL_MOVE]
  refine ⟨?_, ?_, hb.1, hb.2, buttonMaskOf_eq fl⟩
  · rw [hmain, e2, e1]
    simp
  · rw [hmain, e2, e1]

/-- C4 at a concrete state: after a move with button 1 held and an interval of
10 ms, a wheel-up event at (5, 7) with button 1 held sends mask 9 then mask 1. -/
theorem wheel_press_then_release_witness :
    (handle asciiEnv Fl.wheelUp
      (run asciiEnv (State.init false 10) [Action.event Fl.button1 FL_DRAG])
      FL_MOUSEWHEEL).1.sent
      = (run asciiEnv (State.init false 10) [Action.event Fl.button1 FL_DRAG]).sent
        ++ [Msg.pointerEvent (5, 7) 9, Msg.pointerEvent (5, 7) 1] :=
  congrArg (fun r => r.1.sent)
    (wheel_press_then_release asciiEnv Fl.wheelUp
      (run asciiEnv (State.init false 10) [Action.event Fl.button1 FL_DRAG])
      (reachableViaHandle_of_run asciiEnv false 10 _ (by decide)) rfl).1

/-! ## C5: the key table -/

theorem translateKeyEvent_switch (env : Env) (c : Int) (t : List Nat) (k : Nat)
    (hf : ¬ (FL_F < c ∧ c ≤ FL_F_Last))
    (hkp : ¬ (FL_KP + chr '0' ≤ c ∧ c ≤ FL_KP + chr '9'))
    (hs : switchLookup switchTable c = some k) :
    translateKeyEvent env c t = k := by
  unfold translateKeyEvent
  rw [if_neg hf, if_neg hkp, hs]

theorem switchTable_checked :
    ∀ e ∈ switchTable,
      ¬ (FL_F < e.1 ∧ e.1 ≤ FL_F_Last) ∧
      ¬ (FL_KP + chr '0' ≤ e.1 ∧ e.1 ≤ FL_KP + chr '9') ∧
      switchLookup switchTable e.1 = some e.2 ∧ e.2 ≠ XK_VoidSymbol := by
  decide

/-- C5. For every key text `t`: `translateKeyEvent(FL_F + n, t)` is
`XK_F1 + (n - 1)` for `n` in `1..(FL_F_Last - FL_F)`;
`translateKeyEvent(FL_KP + '0' + d, t)` is `XK_KP_0 + d` for `d` in `0..9`; every
label of the `switch` yields the key symbol listed for it, among them
`FL_KP + '='`, which equals `FL_F` and yields `XK_KP_Equal`, and `FL_Meta_L`,
`FL_Meta_R`, which yield `XK_Super_L`, `XK_Super_R`; none of these results is
`XK_VoidSymbol`. -/
theorem key_table_priority (env : Env) (t : List Nat) :
    (∀ n : Int, 1 ≤ n → n ≤ FL_F_Last - FL_F →
      (translateKeyEvent env (FL_F + n) t : Int) = (XK_F1 : Int) + (n - 1) ∧
      translateKeyEvent env (FL_F + n) t ≠ XK_VoidSymbol) ∧
    (∀ d : Int, 0 ≤ d → d ≤ 9 →
      (translateKeyEvent env (FL_KP + chr '0' + d) t : Int) = (XK_KP_0 : Int) + d ∧
      translateKeyEvent env (FL_KP + chr '0' + d) t ≠ XK_VoidSymbol) ∧
    (∀ e ∈ switchTable, translateKeyEvent env e.1 t = e.2 ∧ e.2 ≠ XK_VoidSymbol) ∧
    FL_KP + chr '=' = FL_F ∧
    translateKeyEvent env (FL_KP + chr '=') t = XK_KP_Equal ∧
    translateKeyEvent env FL_Meta_L t = XK_Super_L ∧
    translateKeyEvent env FL_Meta_R t = XK_Super_R := by
  have hsw : ∀ e ∈ switchTable, translateKeyEvent env e.1 t = e.2 ∧ e.2 ≠ XK_VoidSymbol := by
    intro e he
    obtain ⟨h1, h2, h3, h4⟩ := switchTable_checked e he
    exact ⟨translateKeyEvent_switch env e.1 t e.2 h1 h2 h3, h4⟩
  refine ⟨?_, ?_, hsw, by decide, ?_, ?_, ?_⟩
  · intro n h1 h2
    have hn : n ≤ 35 := by
      have : FL_F_Last - FL_F = 35 := by decide
      omega
    have hr : FL_F < FL_F + n ∧ FL_F + n ≤ FL_F_Last := by
      simp only [FL_F, FL_F_Last]
      omega
    have hv : translateKeyEvent env (FL_F + n) t
        = ((XK_F1 : Int) + (FL_F + n - FL_F - 1)).toNat := by
      unfold translateKeyEvent
      rw [if_pos hr]
    rw [hv]
    simp only [XK_F1, XK_VoidSymbol, FL_F]
    constructor
    · rw [Int.toNat_of_nonneg (by push_cast; omega)]
      push_cast
      omega
    · omega
  · intro d h1 h2
    have hc : chr '0' = 48 := by decide
    have hc9 : chr '9' = 57 := by decide
    have hf : ¬ (FL_F < FL_KP + chr '0' + d ∧ FL_KP + chr '0' + d ≤ FL_F_Last) := by
      simp only [FL_F, FL_F_Last, FL_KP, hc]
      omega
    have hr : FL_KP + chr '0' ≤ FL_KP + chr '0' + d ∧ FL_KP + chr '0' + d ≤ FL_KP + chr '9' := by
      simp only [FL_KP, hc, hc9]
      omega
    have hv : translateKeyEvent env (FL_KP + chr '0' + d) t
        = ((XK_KP_0 : Int) + (FL_KP + chr '0' + d - (FL_KP + chr '0'))).toNat := by
      unfold translateKeyEvent
      rw [if_neg hf, if_pos hr]
    rw [hv]
    simp only [XK_KP_0, XK_VoidSymbol, FL_KP, hc]
    constructor
    · rw [Int.toNat_of_nonneg (by push_cast; omega)]
      push_cast
      omega
    · omega
  · exact (hsw (FL_KP + chr '=', XK_KP_Equal) (by decide)).1
  · exact (hsw (FL_Meta_L, XK_Super_L) (by decide)).1
  · exact (hsw (FL_Meta_R, XK_Super_R) (by decide)).1

/-- C5 at concrete keys: F8, numpad 5 and the left Meta key, with the text "x". -/
theorem key_table_priority_witness :
    (translateKeyEvent asciiEnv (FL_F + 8) [0x78] : Int) = (XK_F1 : Int) + (8 - 1) ∧
    (translateKeyEvent asciiEnv (FL_KP + chr '0' + 5) [0x78] : Int) = (XK_KP_0 : Int) + 5 ∧
    translateKeyEvent asciiEnv FL_Meta_L [0x78] = XK_Super_L :=
  ⟨((key_table_priority asciiEnv [0x78]).1 8 (by decide) (by decide)).1,
    ((key_table_priority asciiEnv [0x78]).2.1 5 (by decide) (by decide)).1,
    ((key_table_priority asciiEnv [0x78]).2.2.1 (FL_Meta_L, XK_Super_L) (by decide)).1⟩

/-! ## C6: the context menu -/

theorem popupContextMenu_frame (s : State) (m : Option MenuItem) :
    (popupContextMenu s m).downKeySym = s.downKeySym ∧
    (popupContextMenu s m).lastPointerPos = s.lastPointerPos ∧
    (popupContextMenu s m).lastButtonMask = s.lastButtonMask := by
  cases m with
  | none => exact ⟨rfl, rfl, rfl⟩
  | some m =>
    simp only [popupContextMenu]
    repeat' split
    all_goals simp [State.keyEvent, State.call]

/-- C6. The menu action `ID_CTRLALTDEL` with view-only off changes the state
exactly by sending Control_L down, Alt_L down, Delete down, Delete up, Alt_L up,
Control_L up in that order, a properly nested trace; with view-only on it
changes nothing.  No menu action, and no dismissal of the menu, changes
`downKeySym`, `lastPointerPos` or `lastButtonMask`. -/
theorem ctrlAltDel_action (s : State) (v : Bool) (m : Option MenuItem) :
    (s.viewOnly = false →
      popupContextMenu s (some { argument := ID_CTRLALTDEL, value := v })
        = { s with sent := s.sent ++ ctrlAltDel }) ∧
    (s.viewOnly = true →
      popupContextMenu s (some { argument := ID_CTRLALTDEL, value := v }) = s) ∧
    ctrlAltDel.length = 6 ∧ nested [] ctrlAltDel = true ∧
    (popupContextMenu s m).downKeySym = s.downKeySym ∧
    (popupContextMenu s m).lastPointerPos = s.lastPointerPos ∧
    (popupContextMenu s m).lastButtonMask = s.lastButtonMask := by
  refine ⟨?_, ?_, rfl, by decide, popupContextMenu_frame s m⟩
  · intro hv
    simp [popupContextMenu, ID_CTRLALTDEL, ID_EXIT, ID_CTRL, ID_ALT, ID_MENUKEY, hv,
      State.keyEvent, ctrlAltDel]
  · intro hv
    simp [popupContextMenu, ID_CTRLALTDEL, ID_EXIT, ID_CTRL, ID_ALT, ID_MENUKEY, hv]

/-- C6 at concrete states: the action on the initial state with view-only off
sends the six messages, and with view-only on it leaves the state as it is. -/
theorem ctrlAltDel_action_witness :
    popupContextMenu (State.init false 0) (some { argument := ID_CTRLALTDEL, value := false })
      = { State.init false 0 with sent := (State.init false 0).sent ++ ctrlAltDel } ∧
    popupContextMenu (State.init true 0) (some { argument := ID_CTRLALTDEL, value := false })
      = State.init true 0 :=
  ⟨(ctrlAltDel_action (State.init false 0) false none).1 rfl,
    (ctrlAltDel_action (State.init true 0) false none).2.1 rfl⟩

/-! ## C7: key events that are dropped -/

theorem switchLookup_none (tbl : List (Int × Nat)) (c : Int) (h : ∀ e ∈ tbl, e.1 ≠ c) :
    switchLookup tbl c = none := by
  induction tbl with
  | nil => rfl
  | cons e r ih =>
    obtain ⟨a, v⟩ := e
    have h1 : ¬ c = a := fun he => h (a, v) (List.mem_cons_self _ _) he.symm
    simp only [switchLookup, h1, if_false]
    exact ih (fun e he => h e (List.mem_cons_of_mem _ he))

/-- C7. For a key code that is neither a function key, a numpad digit nor a
label of the `switch`, `translateKeyEvent` returns `XK_VoidSymbol` when the key
text is empty and when `fl_utf_nb_char` does not count exactly one character in
it, and otherwise returns `ucs2keysym` of the decoded code point.  Whenever
`translateKeyEvent` returns `XK_VoidSymbol`, the key press leaves the whole
state unchanged: no message, same `downKeySym`.  A key release for a key code
with no entry in `downKeySym` leaves the whole state unchanged as well. -/
theorem untranslatable_dropped (env : Env) (s : State) (c : Int) (t : List Nat) :
    (¬ (FL_F < c ∧ c ≤ FL_F_Last) →
      ¬ (FL_KP + chr '0' ≤ c ∧ c ≤ FL_KP + chr '9') →
      (∀ e ∈ switchTable, e.1 ≠ c) →
        (t = [] → translateKeyEvent env c t = XK_VoidSymbol) ∧
        (env.fl_utf_nb_char t ≠ 1 → translateKeyEvent env c t = XK_VoidSymbol) ∧
        (t ≠ [] → env.fl_utf_nb_char t = 1 →
          translateKeyEvent env c t = env.ucs2keysym (env.fl_utf8decode t))) ∧
    (translateKeyEvent env c t = XK_VoidSymbol → handleKeyEvent env s c t true = s) ∧
    (s.downKeySym.find c = none → handleKeyEvent env s c t false = s) := by
  refine ⟨?_, ?_, ?_⟩
  · intro hf hkp hs
    have hl := switchLookup_none switchTable c hs
    have hv : translateKeyEvent env c t =
        if t = [] then XK_VoidSymbol
        else if env.fl_utf_nb_char t ≠ 1 then XK_VoidSymbol
        else env.ucs2keysym (env.fl_utf8decode t) := by
      unfold translateKeyEvent
      rw [if_neg hf, if_neg hkp, hl]
    rw [hv]
    refine ⟨fun h => by rw [if_pos h], fun h => ?_, fun h1 h2 => ?_⟩
    · by_cases ht : t = []
      · rw [if_pos ht]
      · rw [if_neg ht, if_pos h]
    · rw [if_neg h1, if_neg (not_not.mpr h2)]
  · intro h
    cases hv : s.viewOnly <;> simp [handleKeyEvent, hv, h]
  · intro h
    cases hv : s.viewOnly <;> simp [handleKeyEvent, hv, h]

/-- C7 at concrete inputs: key code 0x61 with an empty text and with the
two-character text "ab" translates to `XK_VoidSymbol`, and with the text "a" to
the key symbol of `a`; the press with the empty text and a release of a key
that is not down leave the initial state unchanged. -/
theorem untranslatable_dropped_witness :
    translateKeyEvent asciiEnv 0x61 [] = XK_VoidSymbol ∧
    translateKeyEvent asciiEnv 0x61 [0x61, 0x62] = XK_VoidSymbol ∧
    translateKeyEvent asciiEnv 0x61 [0x61] = 0x61 ∧
    handleKeyEvent asciiEnv (State.init false 0) 0x61 [] true = State.init false 0 ∧
    handleKeyEvent asciiEnv (State.init false 0) 0x61 [0x61] false = State.init false 0 :=
  ⟨((untranslatable_dropped asciiEnv (State.init false 0) 0x61 []).1
      (by decide) (by decide) (by decide)).1 rfl,
    ((untranslatable_dropped asciiEnv (State.init false 0) 0x61 [0x61, 0x62]).1
      (by decide) (by decide) (by decide)).2.1 (by decide),
    ((untranslatable_dropped asciiEnv (State.init false 0) 0x61 [0x61]).1
      (by decide) (by decide) (by decide)).2.2 (by decide) (by decide),
    (untranslatable_dropped asciiEnv (State.init false 0) 0x61 []).2.1 (by decide),
    (untranslatable_dropped asciiEnv (State.init false 0) 0x61 [0x61]).2.2 rfl⟩

/-! ## C8: the effect of `FL_UNFOCUS` -/

/-- C8. For every state, with view-only set or not, handling `FL_UNFOCUS`
returns 1 and changes the state exactly by appending one message
`keyEvent(s, false)` for each entry `(c, s)` of `downKeySym`, in map order, and
by emptying `downKeySym`; there are as many new messages as entries, and
`lastPointerPos` and `lastButtonMask` are unchanged. -/
theorem unfocus_releases_entries (env : Env) (fl : Fl) (s : State) :
    handle env fl s FL_UNFOCUS =
      ({ s with sent := s.sent ++ s.downKeySym.map (fun e => Msg.keyEvent e.2 false),
                downKeySym := [] }, 1) ∧
    (s.downKeySym.map (fun e => Msg.keyEvent e.2 false)).length = s.downKeySym.length ∧
    (handle env fl s FL_UNFOCUS).1.downKeySym = [] ∧
    (handle env fl s FL_UNFOCUS).1.lastPointerPos = s.lastPointerPos ∧
    (handle env fl s FL_UNFOCUS).1.lastButtonMask = s.lastButtonMask := by
  have h : handle env fl s FL_UNFOCUS =
      ({ s with sent := s.sent ++ s.downKeySym.map (fun e => Msg.keyEvent e.2 false),
                downKeySym := [] }, 1) := by
    simp [handle, FL_UNFOCUS, FL_ENTER, FL_PUSH, FL_RELEASE, FL_DRAG, FL_MOVE,
      FL_MOUSEWHEEL, FL_FOCUS, releaseAll_eq]
  refine ⟨h, by simp, ?_, ?_, ?_⟩ <;> rw [h]

/-! ## C9: view-only -/

/-- C9. When `viewOnly` is set, `handleKeyEvent` (press and release) and
`handlePointerEvent` leave the whole state unchanged for all arguments, so
nothing is sent, no timeout is armed and `downKeySym`, `lastPointerPos`,
`lastButtonMask` are as before; the menu actions `ID_CTRL`, `ID_ALT`,
`ID_MENUKEY` and `ID_CTRLALTDEL` leave the state unchanged too. -/
theorem viewOnly_suppresses (env : Env) (s : State) (c : Int) (t : List Nat) (d : Bool)
    (pos : Point) (m : Int) (item : MenuItem)
    (hv : s.viewOnly = true)
    (hitem : item.argument = ID_CTRL ∨ item.argument = ID_ALT ∨
      item.argument = ID_MENUKEY ∨ item.argument = ID_CTRLALTDEL) :
    handleKeyEvent env s c t d = s ∧
    handlePointerEvent s pos m = s ∧
    popupContextMenu s (some item) = s := by
  refine ⟨by simp [handleKeyEvent, hv], handlePointerEvent_viewOnly_on s pos m hv, ?_⟩
  rcases hitem with h | h | h | h <;>
    simp [popupContextMenu, h, hv, ID_CTRLALTDEL, ID_EXIT, ID_CTRL, ID_ALT, ID_MENUKEY]

/-- C9 at a concrete state: with view-only on and the key `a` recorded as down,
a release of `a`, a pointer event and "Send Ctrl-Alt-Del" change nothing. -/
theorem viewOnly_suppresses_witness :
    handleKeyEvent asciiEnv
      (run asciiEnv (State.init false 5) [Action.key 0x61 [0x61] true, Action.setViewOnly true])
      0x61 [0x61] false
      = run asciiEnv (State.init false 5) [Action.key 0x61 [0x61] true, Action.setViewOnly true] ∧
    handlePointerEvent
      (run asciiEnv (State.init false 5) [Action.key 0x61 [0x61] true, Action.setViewOnly true])
      (3, 4) 1
      = run asciiEnv (State.init false 5) [Action.key 0x61 [0x61] true, Action.setViewOnly true] ∧
    popupContextMenu
      (run asciiEnv (State.init false 5) [Action.key 0x61 [0x61] true, Action.setViewOnly true])
      (some { argument := ID_CTRLALTDEL, value := false })
      = run asciiEnv (State.init false 5) [Action.key 0x61 [0x61] true, Action.setViewOnly true] :=
  viewOnly_suppresses asciiEnv
    (run asciiEnv (State.init false 5) [Action.key 0x61 [0x61] true, Action.setViewOnly true])
    0x61 [0x61] false (3, 4) 1 { argument := ID_CTRLALTDEL, value := false }
    rfl (Or.inr (Or.inr (Or.inr rfl)))

end Viewport

